import Mathlib

/-!
Verification of `tqdm/contrib/concurrent.py` (thin wrappers around
`concurrent.futures`) against its natural-language specification.

The module under study has three callables:

* `_executor_map(PoolExecutor, fn, *iterables, **tqdm_kwargs)` — the shared
  implementation: deep-copies the kwargs, defaults `total` from
  `len(iterables[0])`, pops `tqdm_class` / `max_workers` / `chunksize`,
  builds `pool_kwargs` (adding `initializer=tqdm_class.set_lock,
  initargs=(tqdm_class.get_lock(),)` on Python >= 3.7), and returns
  `list(tqdm_class(ex.map(fn, *iterables, chunksize=chunksize), **kwargs))`.
* `thread_map` — delegates to `_executor_map` with a thread pool.
* `process_map` — first emits a `RuntimeWarning` when there is at least one
  iterable, no explicit `chunksize`, and the longest `length_hint` is >= 1000;
  then delegates to `_executor_map` with a process pool.

The shallow embedding below models Python sequences, the `zip`-truncation
semantics of `Executor.map`, exception propagation (`Except`), the ordering
of the failure points inside `_executor_map` (the `len(iterables[0])`
`TypeError` on line 33 happens before the `cpu_count() + 4` `TypeError` on
line 36, which happens before the pool is built), the worker-initializer
lock sharing, and — for the frame claim about `tqdm_kwargs` — an explicit
heap of Python dicts so that the `deepcopy` / `pop` mutation discipline is
visible.
-/

set_option autoImplicit false
set_option maxHeartbeats 1000000

namespace Tqdm

variable {V α β E L : Type}

/-- Which executor class `_executor_map` receives: `ThreadPoolExecutor`
(from `thread_map`) or `ProcessPoolExecutor` (from `process_map`). -/
inductive PoolKind where
  | thread
  | process
deriving DecidableEq

/-- How `cpu_count` was resolved at module import time: either `os.cpu_count`
(or `multiprocessing.cpu_count`) was imported — and may return a number or
`None` at call time — or both imports failed and the module-level fallback
`def cpu_count(): return 4` is in effect. -/
inductive CpuDetect where
  | available (n : Option Nat)
  | importFailed
deriving DecidableEq

/-- The value of the Python call `cpu_count()`: `none` models `None`. -/
def cpu_count : CpuDetect → Option Nat
  | CpuDetect.available n => n
  | CpuDetect.importFailed => some 4

/-- A Python iterable argument: a sequence with a defined `len` (`fin`),
a finite iterable without `__len__` (`lenless`, e.g. a generator of finitely
many items), or a lazily unbounded iterator (`unbounded`). -/
inductive PySeq (α : Type) where
  | fin (l : List α)
  | lenless (l : List α)
  | unbounded (f : Nat → α)

/-- Python `len`: defined only for sequences with `__len__`; `none` models the
`TypeError` that `len` raises otherwise. -/
def PySeq.pyLen : PySeq α → Option Nat
  | PySeq.fin l => some l.length
  | PySeq.lenless _ => none
  | PySeq.unbounded _ => none

/-- The defined element count of an iterable, when it is finite. -/
def PySeq.finCount : PySeq α → Option Nat
  | PySeq.fin l => some l.length
  | PySeq.lenless l => some l.length
  | PySeq.unbounded _ => none

def PySeq.isUnbounded : PySeq α → Bool
  | PySeq.unbounded _ => true
  | _ => false

/-- `operator.length_hint(it)` as used by `process_map` (default 0):
`len` for sized sequences, 0 for iterables without a length hint. -/
def length_hint : PySeq α → Nat
  | PySeq.fin l => l.length
  | _ => 0

/-- `max(map(length_hint, iterables))` (0 on the empty tuple, which the code
guards against anyway). -/
def longestHint (its : List (PySeq α)) : Nat :=
  (its.map length_hint).foldl max 0

def allUnbounded (its : List (PySeq α)) : Bool :=
  its.all PySeq.isUnbounded

/-- Minimum of a list of naturals (0 on the empty list; only used on
nonempty lists). -/
def minNat : List Nat → Nat
  | [] => 0
  | [n] => n
  | n :: ns => min n (minNat ns)

/-- Length of the shortest list in `its`. -/
def minLen (its : List (List α)) : Nat :=
  minNat (its.map List.length)

/-- The shortest defined element count among the iterables (ignoring
lazily unbounded ones). -/
def minFinite (its : List (PySeq α)) : Nat :=
  minNat (its.filterMap PySeq.finCount)

/-- The finite list of items an iterable contributes to `zip`: unbounded
iterators are cut off at `m`, the point where `zip` stops pulling from them
because some finite iterable is exhausted. -/
def PySeq.materialize (m : Nat) : PySeq α → List α
  | PySeq.fin l => l
  | PySeq.lenless l => l
  | PySeq.unbounded f => (List.range m).map f

/-- The iterables as plain lists, with unbounded ones materialized up to the
shortest finite count (beyond which `zip` never pulls from them). -/
def seqLists (its : List (PySeq α)) : List (List α) :=
  its.map (PySeq.materialize (minFinite its))

/-- One step of the iterator protocol across a tuple of iterators: the heads
and tails of every list, or `none` as soon as one of them is exhausted. -/
def headsTails : List (List α) → Option (List α × List (List α))
  | [] => some ([], [])
  | [] :: _ => none
  | (x :: xs) :: rest =>
    match headsTails rest with
    | some (hs, ts) => some (x :: hs, xs :: ts)
    | none => none

/-- `zip` driven by the first iterator, advancing the remaining ones in
lockstep via `headsTails`. -/
def pyZipAux : List α → List (List α) → List (List α)
  | [], _ => []
  | x :: xs, rest =>
    match headsTails rest with
    | some (hs, ts) => (x :: hs) :: pyZipAux xs ts
    | none => []

/-- Python `zip(*its)`: tuples of i-th elements, truncated at the shortest
iterable; `zip()` of no iterables yields nothing. This is the element order
`Executor.map` submits work in and yields results in. -/
def pyZip : List (List α) → List (List α)
  | [] => []
  | l :: ls => pyZipAux l ls

/-- Consuming the ordered result iterator of `Executor.map` into a list:
results come back in input order, and the exception of the first failing
element is re-raised at the point its result would be consumed, so no list
is produced on failure (fail-fast; chunking does not change which exception
surfaces first). -/
def consume : List (Except E β) → Except E (List β)
  | [] => Except.ok []
  | r :: rs =>
    match r with
    | Except.error e => Except.error e
    | Except.ok b => (consume rs).map (fun t => b :: t)

/-- The progress-display class: the only state `_executor_map` touches is its
process-wide lock (`get_lock` / `set_lock`). -/
structure TqdmClass (L : Type) where
  lock : L

/-- `tqdm_class.get_lock()`. -/
def TqdmClass.get_lock (tc : TqdmClass L) : L := tc.lock

/-- The display class's state inside one (possibly freshly spawned) worker:
which lock, if any, has been installed on the class there. -/
structure WorkerState (L : Type) where
  clsLock : Option L
deriving DecidableEq

/-- `tqdm_class.set_lock(lock)`: installs `lock` as the class's lock in the
address space where it runs. -/
def TqdmClass.set_lock (_tc : TqdmClass L) (lock : L) (_w : WorkerState L) :
    WorkerState L :=
  WorkerState.mk (some lock)

/-- A worker before any initializer has run: no lock installed. -/
def freshWorker : WorkerState L := WorkerState.mk none

/-- The `pool_kwargs` dict handed to `PoolExecutor(**pool_kwargs)`:
`max_workers`, plus (on Python >= 3.7) the `initializer` function together
with its `initargs` tuple. -/
structure PoolKwargs (L : Type) where
  kind : PoolKind
  max_workers : Nat
  init : Option ((L → WorkerState L → WorkerState L) × L)

/-- Spawning one worker of the pool: runs `initializer(*initargs)` in the
fresh worker when the capability is present, otherwise a no-op. -/
def spawnWorker (pk : PoolKwargs L) : WorkerState L :=
  match pk.init with
  | some fa => fa.1 fa.2 freshWorker
  | none => freshWorker

/-- `**tqdm_kwargs` as a structured record: `none` models absence of the key. -/
structure TqdmKwargs (L : Type) where
  total : Option Nat := none
  tqdm_class : Option (TqdmClass L) := none
  max_workers : Option Nat := none
  chunksize : Option Nat := none

/-- The ambient environment of one call: whether
`sys.version_info[:2] >= (3, 7)` (the executors accept `initializer` /
`initargs` exactly then), how `cpu_count` resolves, and the module's default
display class `tqdm.auto.tqdm`. -/
structure Env (L : Type) where
  supportsInit : Bool
  detect : CpuDetect
  tqdm_auto : TqdmClass L

/-- Errors raised inside the body of `_executor_map` before any work is
submitted: `iterables[0]` on an empty tuple (IndexError, line 33),
`len(iterables[0])` on a length-less iterable (TypeError, line 33), and
`cpu_count() + 4` when `cpu_count()` is `None` (TypeError, line 36). -/
inductive EarlyErr where
  | indexError
  | lenTypeError
  | cpuTypeError
deriving DecidableEq

def EarlyErr.isTypeError : EarlyErr → Bool
  | EarlyErr.indexError => false
  | EarlyErr.lenTypeError => true
  | EarlyErr.cpuTypeError => true

/-- The configuration a call actually ran with: the constructed pool kwargs,
the `total` handed to the display component, and the `chunksize` handed to
`ex.map`. Present in the outcome exactly when execution got past line 36. -/
structure RunInfo (L : Type) where
  pk : PoolKwargs L
  displayTotal : Nat
  chunksize : Nat

/-- Observable outcome of one `_executor_map` call: a returned list, an
exception raised in the function body before the pool exists, an exception
of `fn` re-raised during consumption, or non-termination (materializing an
unbounded result sequence). -/
inductive Outcome (β E L : Type) where
  | ret (info : RunInfo L) (res : List β)
  | raisedEarly (e : EarlyErr)
  | raisedFn (info : RunInfo L) (e : E)
  | diverges (info : RunInfo L)

/-- The returned list, when the call returns one. -/
def Outcome.result? : Outcome β E L → Option (List β)
  | Outcome.ret _ res => some res
  | _ => none

/-- The run configuration, when execution reached pool construction. -/
def Outcome.info? : Outcome β E L → Option (RunInfo L)
  | Outcome.ret i _ => some i
  | Outcome.raisedFn i _ => some i
  | Outcome.diverges i => some i
  | Outcome.raisedEarly _ => none

/-- Lines 33–34: `if "total" not in kwargs: kwargs["total"] = len(iterables[0])`.
Raises IndexError on an empty iterable tuple and TypeError when the first
iterable has no `len`; both happen before anything else in the body. -/
def resolveTotal (its : List (PySeq α)) : Option Nat → Except EarlyErr Nat
  | some t => Except.ok t
  | none =>
    match its with
    | [] => Except.error EarlyErr.indexError
    | s :: _ =>
      match s.pyLen with
      | some n => Except.ok n
      | none => Except.error EarlyErr.lenTypeError

/-- Line 36's default expression `min(32, cpu_count() + 4)`, evaluated on
every call (Python evaluates the second argument of `kwargs.pop`
unconditionally): TypeError when `cpu_count()` is `None`. -/
def defaultMaxWorkers (d : CpuDetect) : Except EarlyErr Nat :=
  match cpu_count d with
  | some n => Except.ok (min 32 (n + 4))
  | none => Except.error EarlyErr.cpuTypeError

/-- `_executor_map(PoolExecutor, fn, *iterables, **tqdm_kwargs)`, lines 28–44.
`fn`'s possible exception is modelled by `Except E`; the tuple of iterables
by a list of `PySeq`. Steps in source order: resolve `total` (line 33),
resolve `tqdm_class` (line 35), evaluate the `max_workers` default (line 36),
resolve `chunksize` (line 37), build `pool_kwargs` (lines 38–42), then
materialize `list(tqdm_class(ex.map(fn, *iterables, chunksize=chunksize),
**kwargs))` (line 44) — which never terminates when every iterable is
lazily unbounded, and otherwise yields the `zip`-truncated rows in input
order with fail-fast exception propagation. -/
def _executor_map (kind : PoolKind) (env : Env L) (fn : List α → Except E β)
    (iterables : List (PySeq α)) (tqdm_kwargs : TqdmKwargs L) : Outcome β E L :=
  match resolveTotal iterables tqdm_kwargs.total with
  | Except.error e => Outcome.raisedEarly e
  | Except.ok total =>
    let tqdm_class := tqdm_kwargs.tqdm_class.getD env.tqdm_auto
    match defaultMaxWorkers env.detect with
    | Except.error e => Outcome.raisedEarly e
    | Except.ok dmw =>
      let max_workers := tqdm_kwargs.max_workers.getD dmw
      let chunksize := tqdm_kwargs.chunksize.getD 1
      let pool_kwargs : PoolKwargs L :=
        { kind := kind
          max_workers := max_workers
          init :=
            if env.supportsInit then
              some (tqdm_class.set_lock, tqdm_class.get_lock)
            else none }
      let info : RunInfo L :=
        { pk := pool_kwargs, displayTotal := total, chunksize := chunksize }
      if !iterables.isEmpty && allUnbounded iterables then
        Outcome.diverges info
      else
        match consume ((pyZip (seqLists iterables)).map fn) with
        | Except.ok res => Outcome.ret info res
        | Except.error e => Outcome.raisedFn info e

/-- `thread_map`, lines 47–62: delegates to `_executor_map` with
`ThreadPoolExecutor`; emits no warning (the first component counts
`RuntimeWarning`s emitted by the call). -/
def thread_map (env : Env L) (fn : List α → Except E β)
    (iterables : List (PySeq α)) (tqdm_kwargs : TqdmKwargs L) :
    Nat × Outcome β E L :=
  (0, _executor_map PoolKind.thread env fn iterables tqdm_kwargs)

/-- `process_map`, lines 65–95: when the iterable tuple is nonempty,
`"chunksize"` is not among the kwargs, and
`max(map(length_hint, iterables)) >= 1000`, emits one `RuntimeWarning`;
then delegates to `_executor_map` with `ProcessPoolExecutor`. -/
def process_map (env : Env L) (fn : List α → Except E β)
    (iterables : List (PySeq α)) (tqdm_kwargs : TqdmKwargs L) :
    Nat × Outcome β E L :=
  let warns :=
    if !iterables.isEmpty && tqdm_kwargs.chunksize.isNone
        && decide (1000 ≤ longestHint iterables) then 1 else 0
  (warns, _executor_map PoolKind.process env fn iterables tqdm_kwargs)

/-- The `RunInfo` that `_executor_map` builds once it reaches lines 38–42,
as a function of the call's inputs and the evaluated `max_workers` default
`dmw`; proven below to coincide with the info embedded in the outcome. -/
def runInfoOf (kind : PoolKind) (env : Env L) (kw : TqdmKwargs L)
    (t dmw : Nat) : RunInfo L :=
  let tc := kw.tqdm_class.getD env.tqdm_auto
  { pk :=
      { kind := kind
        max_workers := kw.max_workers.getD dmw
        init := if env.supportsInit then some (tc.set_lock, tc.get_lock) else none }
    displayTotal := t
    chunksize := kw.chunksize.getD 1 }

/-- Spec-side definition for the refinement claim, following §8 of the spec
word for word: the sequential map whose i-th element is
`fn(*[seq[i] for seq in xs])`, for `i` ranging over the common length `n`.
The default `d` is never reached when every sequence has length `n`. -/
def specSequentialMap (d : α) (fn : List α → β) (xs : List (List α)) (n : Nat) :
    List β :=
  (List.range n).map (fun i => fn (xs.map (fun seq => seq.getD i d)))

/-! ### Python dicts on an explicit heap, for the `tqdm_kwargs` frame claim

`_executor_map` receives a reference to the caller's kwargs dict and runs
`kwargs = deepcopy(tqdm_kwargs)` (line 32) before inserting `"total"` and
popping `"tqdm_class"`, `"max_workers"`, `"chunksize"` (lines 33–37). To make
the mutation discipline visible we model dicts as association lists living on
a heap of references, allocate a fresh reference for the deep copy, and let
every mutating operation write through the local reference only. -/

/-- A Python dict with string keys. -/
abbrev Dict (V : Type) : Type := List (String × V)

def Dict.hasKey (d : Dict V) (k : String) : Bool :=
  d.any (fun p => p.1 == k)

def Dict.find? (d : Dict V) (k : String) : Option V :=
  match d with
  | [] => none
  | p :: ps => if p.1 == k then some p.2 else Dict.find? ps k

/-- `del d[k]` / the removal half of `d.pop(k)`. -/
def Dict.erase (d : Dict V) (k : String) : Dict V :=
  d.filter (fun p => !(p.1 == k))

/-- `d[k] = v`. -/
def Dict.setItem (d : Dict V) (k : String) (v : V) : Dict V :=
  if d.hasKey k then d.map (fun p => if p.1 == k then (k, v) else p)
  else d ++ [(k, v)]

/-- `d.pop(k, dflt)`: the value (or default) together with the mutated dict. -/
def Dict.pop (d : Dict V) (k : String) (dflt : V) : V × Dict V :=
  ((d.find? k).getD dflt, d.erase k)

/-- A heap of dicts addressed by references. -/
abbrev Heap (V : Type) : Type := List (Dict V)

def Heap.read (h : Heap V) (r : Nat) : Dict V := h.getD r []

def Heap.write (h : Heap V) (r : Nat) (d : Dict V) : Heap V := h.set r d

/-- The defaults the pops on lines 35–37 fall back to, as dict values:
`tqdm_auto`, and the literal `1` for `chunksize`. -/
structure KwDefaults (V : Type) where
  tqdmAutoV : V
  oneV : V

/-- Lines 32–37 of `_executor_map`, acting on the heap: `kwargs =
deepcopy(tqdm_kwargs)` allocates a fresh reference `r1` holding a copy of the
dict at the caller's reference `r0`; the `"total"` insertion and the three
pops then write through `r1` only. Returns the final heap, the local
reference, and the three popped values. -/
def kwargsPhase (dfl : KwDefaults V) (lenFirst : V) (defMW : V)
    (h0 : Heap V) (r0 : Nat) : Heap V × Nat × V × V × V :=
  let h1 := h0 ++ [Heap.read h0 r0]
  let r1 := h0.length
  let h2 :=
    if (Heap.read h1 r1).hasKey "total" then h1
    else Heap.write h1 r1 ((Heap.read h1 r1).setItem "total" lenFirst)
  let p1 := (Heap.read h2 r1).pop "tqdm_class" dfl.tqdmAutoV
  let h3 := Heap.write h2 r1 p1.2
  let p2 := (Heap.read h3 r1).pop "max_workers" defMW
  let h4 := Heap.write h3 r1 p2.2
  let p3 := (Heap.read h4 r1).pop "chunksize" dfl.oneV
  let h5 := Heap.write h4 r1 p3.2
  (h5, r1, p1.1, p2.1, p3.1)

/-! ### Concrete instances used to witness the theorems below -/

/-- An ordinary environment: `cpu_count()` returns 4, pre-3.7 executors. -/
def envStd : Env Nat := ⟨false, CpuDetect.available (some 4), ⟨0⟩⟩

/-- Python >= 3.7 environment: executors accept `initializer` / `initargs`;
the default display class carries lock 42. -/
def envInit : Env Nat := ⟨true, CpuDetect.available (some 4), ⟨42⟩⟩

/-- `os.cpu_count` imported but returning `None`. -/
def envNoCpu : Env Nat := ⟨false, CpuDetect.available none, ⟨0⟩⟩

/-- Neither `os.cpu_count` nor `multiprocessing.cpu_count` importable:
the module-level fallback returning 4 is in effect. -/
def envImportFail : Env Nat := ⟨false, CpuDetect.importFailed, ⟨0⟩⟩

/-- A sample worker function: sum of the argument tuple. -/
def sumFn : List Nat → Nat := fun r => r.foldl (fun a b => a + b) 0

/-- `sumFn` as a never-raising `fn`. -/
def okFn : List Nat → Except Unit Nat := fun r => Except.ok (sumFn r)

/-- A worker function that raises exception `7` on every element. -/
def errFn : List Nat → Except Nat Nat := fun _ => Except.error 7

/-! ### Helper lemmas -/

theorem minNat_cons_cons (n m : Nat) (ns : List Nat) :
    minNat (n :: m :: ns) = min n (minNat (m :: ns)) := rfl

theorem minNat_le {ns : List Nat} {n : Nat} (h : n ∈ ns) : minNat ns ≤ n := by
  induction ns with
  | nil => cases h
  | cons a t ih =>
    cases t with
    | nil =>
      rcases List.mem_singleton.mp h with rfl
      exact Nat.le_refl _
    | cons b t2 =>
      rw [minNat_cons_cons]
      rcases List.mem_cons.mp h with rfl | hmem
      · exact Nat.le_trans (Nat.min_le_left _ _) (Nat.le_refl _)
      · exact Nat.le_trans (Nat.min_le_right _ _) (ih hmem)

theorem minNat_mem {ns : List Nat} (h : ns ≠ []) : minNat ns ∈ ns := by
  induction ns with
  | nil => exact absurd rfl h
  | cons a t ih =>
    cases t with
    | nil => simp [minNat]
    | cons b t2 =>
      rw [minNat_cons_cons]
      rcases Nat.min_eq_left (a := a) (b := minNat (b :: t2)) with _
      by_cases hle : a ≤ minNat (b :: t2)
      · rw [Nat.min_eq_left hle]; exact List.mem_cons_self a _
      · rw [Nat.min_eq_right (Nat.le_of_not_le hle)]
        exact List.mem_cons_of_mem a (ih (by simp))

theorem minNat_ge {ns : List Nat} {m : Nat} (h : ∀ n ∈ ns, m ≤ n)
    (hne : ns ≠ []) : m ≤ minNat ns :=
  h (minNat ns) (minNat_mem hne)

theorem minNat_map_pred (ns : List Nat) :
    minNat (ns.map (fun k => k - 1)) = minNat ns - 1 := by
  induction ns with
  | nil => rfl
  | cons a t ih =>
    cases t with
    | nil => rfl
    | cons b t2 =>
      simp only [List.map_cons] at ih ⊢
      rw [minNat_cons_cons, ih, minNat_cons_cons]
      omega

theorem minNat_zero_cons (ns : List Nat) : minNat (0 :: ns) = 0 := by
  cases ns with
  | nil => rfl
  | cons b t => rw [minNat_cons_cons]; omega

theorem headsTails_of_forall_ne (d : α) :
    ∀ its : List (List α), (∀ l ∈ its, l ≠ []) →
      headsTails its =
        some (its.map (fun l => l.getD 0 d), its.map List.tail) := by
  intro its
  induction its with
  | nil => intro _; rfl
  | cons a t ih =>
    intro h
    have ht := ih (fun l hl => h l (List.mem_cons_of_mem a hl))
    obtain ⟨x, xs, rfl⟩ : ∃ x xs, a = x :: xs := by
      cases a with
      | nil => exact absurd rfl (h [] (List.mem_cons_self _ _))
      | cons x xs => exact ⟨x, xs, rfl⟩
    simp only [headsTails, ht, List.map_cons]
    simp

theorem headsTails_none_exists :
    ∀ {its : List (List α)}, headsTails its = none → ∃ l ∈ its, l = [] := by
  intro its
  induction its with
  | nil => intro h; exact Option.noConfusion h
  | cons a t ih =>
    intro h
    cases a with
    | nil => exact ⟨[], List.mem_cons_self _ _, rfl⟩
    | cons x xs =>
      simp only [headsTails] at h
      cases hrec : headsTails t with
      | none =>
        obtain ⟨l, hl, he⟩ := ih hrec
        exact ⟨l, List.mem_cons_of_mem _ hl, he⟩
      | some p =>
        rw [hrec] at h
        obtain ⟨hs, ts⟩ := p
        exact Option.noConfusion h

theorem headsTails_some_facts :
    ∀ {its : List (List α)} {hs : List α} {ts : List (List α)},
      headsTails its = some (hs, ts) →
      ts = its.map List.tail ∧ ∀ l ∈ its, l ≠ [] := by
  intro its
  induction its with
  | nil =>
    intro hs ts h
    simp only [headsTails, Option.some.injEq, Prod.mk.injEq] at h
    refine ⟨?_, by intro l hl; cases hl⟩
    rw [List.map_nil]
    exact h.2.symm
  | cons a t ih =>
    intro hs ts h
    cases a with
    | nil => exact Option.noConfusion h
    | cons x xs =>
      simp only [headsTails] at h
      cases hrec : headsTails t with
      | none => rw [hrec] at h; exact Option.noConfusion h
      | some p =>
        obtain ⟨hs2, ts2⟩ := p
        rw [hrec] at h
        simp only [Option.some.injEq, Prod.mk.injEq] at h
        obtain ⟨ihts, ihne⟩ := ih hrec
        refine ⟨?_, ?_⟩
        · rw [List.map_cons, List.tail_cons, ← ihts]
          exact h.2.symm
        · intro l hl
          rcases List.mem_cons.mp hl with rfl | hmem
          · simp
          · exact ihne l hmem

theorem pyZipAux_length :
    ∀ (l : List α) (ls : List (List α)),
      (pyZipAux l ls).length = minLen (l :: ls) := by
  intro l
  induction l with
  | nil =>
    intro ls
    simp only [pyZipAux, List.length_nil, minLen, List.map_cons]
    exact (minNat_zero_cons _).symm
  | cons x xs ih =>
    intro ls
    cases hht : headsTails ls with
    | none =>
      obtain ⟨le, hmem, rfl⟩ := headsTails_none_exists hht
      simp only [pyZipAux, hht, List.length_nil]
      have hz : (0 : Nat) ∈ ((x :: xs).length :: ls.map List.length) := by
        refine List.mem_cons_of_mem _ ?_
        exact List.mem_map.mpr ⟨[], hmem, rfl⟩
      have := minNat_le hz
      simp only [minLen, List.map_cons]
      omega
    | some p =>
      obtain ⟨hs, ts⟩ := p
      obtain ⟨hts, hne⟩ := headsTails_some_facts hht
      simp only [pyZipAux, hht, List.length_cons, ih]
      have hones : ∀ n ∈ (x :: xs).length :: ls.map List.length, 1 ≤ n := by
        intro n hn
        rcases List.mem_cons.mp hn with rfl | hmem
        · simp
        · obtain ⟨le, hle, rfl⟩ := List.mem_map.mp hmem
          have := hne le hle
          cases le with
          | nil => exact absurd rfl this
          | cons y ys => simp
      have hge : 1 ≤ minNat ((x :: xs).length :: ls.map List.length) :=
        minNat_ge hones (by simp)
      have hmap : (minLen (xs :: ts)) = minNat ((x :: xs).length :: ls.map List.length) - 1 := by
        subst hts
        have e1 : (xs :: (ls.map List.tail)).map List.length
            = ((x :: xs).length :: ls.map List.length).map (fun k => k - 1) := by
          simp only [List.map_cons, List.map_map]
          congr 1
          refine List.map_congr_left ?_
          intro l2 _
          simp [Function.comp_apply, List.length_tail]
        simp only [minLen]
        rw [e1, minNat_map_pred]
      rw [hmap]
      simp only [minLen, List.map_cons]
      omega

theorem pyZip_length (its : List (List α)) :
    (pyZip its).length = minLen its := by
  cases its with
  | nil => rfl
  | cons l ls => exact pyZipAux_length l ls

theorem tail_getD (l : List α) (i : Nat) (d : α) :
    l.tail.getD i d = l.getD (i + 1) d := by
  cases l with
  | nil => rfl
  | cons x xs => rfl

theorem pyZip_eq_ofIndex (d : α) :
    ∀ (n : Nat) (its : List (List α)), its ≠ [] →
      (∀ l ∈ its, l.length = n) →
      pyZip its = (List.range n).map (fun i => its.map (fun l => l.getD i d)) := by
  intro n
  induction n with
  | zero =>
    intro its hne hlen
    cases its with
    | nil => exact absurd rfl hne
    | cons a t =>
      have ha : a = [] := List.length_eq_zero.mp (hlen a (List.mem_cons_self _ _))
      subst ha
      rfl
  | succ n ih =>
    intro its hne hlen
    cases its with
    | nil => exact absurd rfl hne
    | cons a t =>
      obtain ⟨x, xs, rfl⟩ : ∃ x xs, a = x :: xs := by
        cases a with
        | nil => exact absurd (hlen [] (List.mem_cons_self _ _)) (by simp)
        | cons x xs => exact ⟨x, xs, rfl⟩
      have htne : ∀ l ∈ t, l ≠ [] := by
        intro l hl he
        have := hlen l (List.mem_cons_of_mem _ hl)
        rw [he] at this
        exact Nat.noConfusion this
      have hht := headsTails_of_forall_ne d t htne
      show pyZipAux (x :: xs) t = _
      simp only [pyZipAux, hht]
      have hihlen : ∀ l ∈ xs :: t.map List.tail, l.length = n := by
        intro l hl
        rcases List.mem_cons.mp hl with heq | hmem
        · have hx := hlen (x :: xs) (List.mem_cons_self _ _)
          simp only [List.length_cons] at hx
          rw [heq]
          omega
        · obtain ⟨l2, hl2, heq2⟩ := List.mem_map.mp hmem
          have h3 := hlen l2 (List.mem_cons_of_mem _ hl2)
          rw [← heq2]
          simp [List.length_tail, h3]
      have hrec := ih (xs :: t.map List.tail) (by simp) hihlen
      have hrec2 : pyZipAux xs (t.map List.tail)
          = (List.range n).map
              (fun i => (xs :: t.map List.tail).map (fun l => l.getD i d)) := hrec
      rw [hrec2, List.range_succ_eq_map, List.map_cons, List.map_map]
      congr 1
      refine List.map_congr_left ?_
      intro i _
      simp only [Function.comp_apply, List.map_cons, List.map_map,
        List.getD_cons_succ]
      congr 1
      refine List.map_congr_left ?_
      intro l2 _
      simp only [Function.comp_apply]
      exact tail_getD l2 i d

theorem seqLists_map_fin (xs : List (List α)) :
    seqLists (xs.map PySeq.fin) = xs := by
  unfold seqLists
  rw [List.map_map]
  have hid : (PySeq.materialize (minFinite (xs.map PySeq.fin)) ∘ PySeq.fin
      : List α → List α) = id := by
    funext l
    rfl
  rw [hid, List.map_id]

theorem allUnbounded_map_fin {xs : List (List α)} (hne : xs ≠ []) :
    allUnbounded (xs.map PySeq.fin) = false := by
  cases xs with
  | nil => exact absurd rfl hne
  | cons a t => simp [allUnbounded, PySeq.isUnbounded]

theorem consume_map_ok {γ : Type} (g : γ → β) (l : List γ) :
    consume (l.map (fun r => (Except.ok (g r) : Except E β)))
      = Except.ok (l.map g) := by
  induction l with
  | nil => rfl
  | cons a t ih => simp [consume, ih, Except.map]

theorem consume_ok_length :
    ∀ {rs : List (Except E β)} {l : List β},
      consume rs = Except.ok l → l.length = rs.length := by
  intro rs
  induction rs with
  | nil =>
    intro l h
    simp only [consume, Except.ok.injEq] at h
    subst h
    rfl
  | cons r t ih =>
    intro l h
    cases r with
    | error e => exact Except.noConfusion h
    | ok b =>
      simp only [consume] at h
      cases hc : consume (E := E) t with
      | error e => rw [hc] at h; exact Except.noConfusion h
      | ok t2 =>
        rw [hc] at h
        simp only [Except.map, Except.ok.injEq] at h
        subst h
        simp [ih hc]

theorem consume_error_mem {rs : List (Except E β)} {e : E}
    (h : Except.error e ∈ rs) :
    ∃ e2, consume (β := β) rs = Except.error e2 ∧ Except.error e2 ∈ rs := by
  induction rs with
  | nil => cases h
  | cons r t ih =>
    cases r with
    | error e3 => exact ⟨e3, rfl, List.mem_cons_self _ _⟩
    | ok b =>
      have hmem : Except.error e ∈ t := by
        rcases List.mem_cons.mp h with heq | hm
        · exact Except.noConfusion heq
        · exact hm
      obtain ⟨e2, hc, hm2⟩ := ih hmem
      refine ⟨e2, ?_, List.mem_cons_of_mem _ hm2⟩
      simp [consume, hc, Except.map]

theorem resolveTotal_fin_head {xs : List (List α)} (tot : Option Nat)
    (hne : xs ≠ []) :
    ∃ t, resolveTotal (xs.map PySeq.fin) tot = Except.ok t := by
  cases tot with
  | some t => exact ⟨t, rfl⟩
  | none =>
    cases xs with
    | nil => exact absurd rfl hne
    | cons a t2 => exact ⟨a.length, rfl⟩

theorem resolveTotal_error_eq {its : List (PySeq α)} {tot : Option Nat}
    {e : EarlyErr} (hne : its ≠ [])
    (h : resolveTotal its tot = Except.error e) :
    e = EarlyErr.lenTypeError := by
  cases tot with
  | some t => exact Except.noConfusion h
  | none =>
    cases its with
    | nil => exact absurd rfl hne
    | cons s t2 =>
      cases hs : s.pyLen with
      | some n => simp [resolveTotal, hs] at h
      | none =>
        simp only [resolveTotal, hs, Except.error.injEq] at h
        exact h.symm

theorem minLen_seqLists {its : List (PySeq α)}
    (h : allUnbounded its = false) :
    minLen (seqLists its) = minFinite its := by
  obtain ⟨s0, hs0, hs0u⟩ : ∃ s ∈ its, PySeq.isUnbounded s = false := by
    unfold allUnbounded at h
    rcases List.all_eq_false.mp h with ⟨s, hs, hns⟩
    exact ⟨s, hs, by simpa using hns⟩
  obtain ⟨k0, hk0⟩ : ∃ k, PySeq.finCount s0 = some k := by
    cases s0 with
    | fin l => exact ⟨l.length, rfl⟩
    | lenless l => exact ⟨l.length, rfl⟩
    | unbounded f => exact absurd hs0u (by simp [PySeq.isUnbounded])
  have hfmne : its.filterMap PySeq.finCount ≠ [] := by
    intro hemp
    have hk : k0 ∈ its.filterMap PySeq.finCount :=
      List.mem_filterMap.mpr ⟨s0, hs0, hk0⟩
    rw [hemp] at hk
    cases hk
  have hm : minNat (its.filterMap PySeq.finCount) = minFinite its := rfl
  have hlens : (seqLists its).map List.length
      = its.map (fun s => (PySeq.finCount s).getD (minFinite its)) := by
    unfold seqLists
    rw [List.map_map]
    refine List.map_congr_left ?_
    intro s _
    cases s with
    | fin l => rfl
    | lenless l => rfl
    | unbounded f => simp [Function.comp_apply, PySeq.materialize, PySeq.finCount]
  unfold minLen
  rw [hlens]
  apply Nat.le_antisymm
  · have hmm : minFinite its
        ∈ its.map (fun s => (PySeq.finCount s).getD (minFinite its)) := by
      have hmem := minNat_mem hfmne
      rw [hm] at hmem
      obtain ⟨s1, hs1, hfc1⟩ := List.mem_filterMap.mp hmem
      exact List.mem_map.mpr ⟨s1, hs1, by rw [hfc1]; rfl⟩
    exact minNat_le hmm
  · refine minNat_ge ?_ ?_
    · intro n hn
      obtain ⟨s1, hs1, hfc1⟩ := List.mem_map.mp hn
      cases hc : PySeq.finCount s1 with
      | none =>
        rw [← hfc1, hc]
        exact Nat.le_refl _
      | some k =>
        have hkm : k ∈ its.filterMap PySeq.finCount :=
          List.mem_filterMap.mpr ⟨s1, hs1, hc⟩
        have hle := minNat_le hkm
        rw [hm] at hle
        rw [← hfc1, hc]
        exact hle
    · intro hemp
      have : s0 ∈ its := hs0
      rw [List.map_eq_nil_iff] at hemp
      rw [hemp] at this
      cases this

theorem executor_map_early_total {kind : PoolKind} {env : Env L}
    {fn : List α → Except E β} {its : List (PySeq α)} {kw : TqdmKwargs L}
    {e : EarlyErr} (h : resolveTotal its kw.total = Except.error e) :
    _executor_map kind env fn its kw = Outcome.raisedEarly e := by
  unfold _executor_map
  rw [h]

theorem executor_map_cpu_error {kind : PoolKind} {env : Env L}
    {fn : List α → Except E β} {its : List (PySeq α)} {kw : TqdmKwargs L}
    {t : Nat} (ht : resolveTotal its kw.total = Except.ok t)
    (hcpu : cpu_count env.detect = none) :
    _executor_map kind env fn its kw
      = Outcome.raisedEarly EarlyErr.cpuTypeError := by
  unfold _executor_map
  rw [ht]
  simp [defaultMaxWorkers, hcpu]

theorem executor_map_run {kind : PoolKind} {env : Env L}
    {fn : List α → Except E β} {its : List (PySeq α)} {kw : TqdmKwargs L}
    {t c : Nat} (ht : resolveTotal its kw.total = Except.ok t)
    (hcpu : cpu_count env.detect = some c)
    (hgo : (!its.isEmpty && allUnbounded its) = false) :
    _executor_map kind env fn its kw =
      match consume ((pyZip (seqLists its)).map fn) with
      | Except.ok res =>
          Outcome.ret (runInfoOf kind env kw t (min 32 (c + 4))) res
      | Except.error e =>
          Outcome.raisedFn (runInfoOf kind env kw t (min 32 (c + 4))) e := by
  unfold _executor_map
  rw [ht]
  simp only [defaultMaxWorkers, hcpu, hgo, Bool.false_eq_true, if_false,
    runInfoOf]

theorem executor_map_diverges {kind : PoolKind} {env : Env L}
    {fn : List α → Except E β} {its : List (PySeq α)} {kw : TqdmKwargs L}
    {t c : Nat} (ht : resolveTotal its kw.total = Except.ok t)
    (hcpu : cpu_count env.detect = some c)
    (hstop : (!its.isEmpty && allUnbounded its) = true) :
    _executor_map kind env fn its kw
      = Outcome.diverges (runInfoOf kind env kw t (min 32 (c + 4))) := by
  unfold _executor_map
  rw [ht]
  simp only [defaultMaxWorkers, hcpu, hstop, if_true, runInfoOf]

theorem getD_set_ne {γ : Type} :
    ∀ (l : List γ) (i j : Nat) (a d : γ), i ≠ j →
      (l.set i a).getD j d = l.getD j d := by
  intro l
  induction l with
  | nil => intro i j a d _; rfl
  | cons b t ih =>
    intro i j a d h
    cases i with
    | zero =>
      cases j with
      | zero => exact absurd rfl h
      | succ m => rfl
    | succ n =>
      cases j with
      | zero => rfl
      | succ m =>
        simp only [List.set_cons_succ, List.getD_cons_succ]
        exact ih n m a d (fun he => h (by rw [he]))

theorem heap_read_write_ne (h : Heap V) (r2 : Nat) (d : Dict V) (r : Nat)
    (hne : r ≠ r2) : Heap.read (Heap.write h r2 d) r = Heap.read h r :=
  getD_set_ne h r2 r d [] (fun he => hne he.symm)

theorem heap_read_append (h : Heap V) (d : Dict V) (r : Nat)
    (hr : r < h.length) : Heap.read (h ++ [d]) r = Heap.read h r := by
  unfold Heap.read
  induction h generalizing r with
  | nil => cases hr
  | cons a t ih =>
    cases r with
    | zero => rfl
    | succ n =>
      simp only [List.cons_append, List.getD_cons_succ]
      exact ih n (Nat.lt_of_succ_lt_succ hr)

theorem cpu_of_info_some {kind : PoolKind} {env : Env L}
    {fn : List α → Except E β} {its : List (PySeq α)} {kw : TqdmKwargs L}
    {i : RunInfo L}
    (hinfo : (_executor_map kind env fn its kw).info? = some i) :
    ∃ t c, resolveTotal its kw.total = Except.ok t
      ∧ cpu_count env.detect = some c := by
  cases ht : resolveTotal its kw.total with
  | error e =>
    rw [executor_map_early_total ht] at hinfo
    simp [Outcome.info?] at hinfo
  | ok t =>
    cases hcpu : cpu_count env.detect with
    | none =>
      rw [executor_map_cpu_error ht hcpu] at hinfo
      simp [Outcome.info?] at hinfo
    | some c => exact ⟨t, c, rfl, rfl⟩

theorem info_of_executor_map {kind : PoolKind} {env : Env L}
    {fn : List α → Except E β} {its : List (PySeq α)} {kw : TqdmKwargs L}
    {i : RunInfo L} {t c : Nat}
    (ht : resolveTotal its kw.total = Except.ok t)
    (hcpu : cpu_count env.detect = some c)
    (hinfo : (_executor_map kind env fn its kw).info? = some i) :
    i = runInfoOf kind env kw t (min 32 (c + 4)) := by
  cases hgo : (!its.isEmpty && allUnbounded its) with
  | true =>
    rw [executor_map_diverges ht hcpu hgo] at hinfo
    simp only [Outcome.info?, Option.some.injEq] at hinfo
    exact hinfo.symm
  | false =>
    rw [executor_map_run ht hcpu hgo] at hinfo
    cases hcons : consume ((pyZip (seqLists its)).map fn) with
    | ok res =>
      rw [hcons] at hinfo
      simp only [Outcome.info?, Option.some.injEq] at hinfo
      exact hinfo.symm
    | error e =>
      rw [hcons] at hinfo
      simp only [Outcome.info?, Option.some.injEq] at hinfo
      exact hinfo.symm

/-! ### The claims -/

/-- C1: for every function `fn` and equal-length input sequences `xs`, the
list returned by the adapter (`thread_map` or `process_map`) equals the
sequential map — `result[i] = fn(*[seq[i] for seq in xs])` for every index
`i` — for any `max_workers`, any `chunksize` (both free in `kw`), and either
pool kind, assuming only that `cpu_count()` yields a number so that the call
can run at all. -/
theorem C1_adapter_equals_sequential_map {α β E L : Type} (env : Env L)
    (d : α) (fn : List α → β) (xs : List (List α)) (n c : Nat)
    (kw : TqdmKwargs L)
    (hne : xs ≠ [])
    (hlen : ∀ l ∈ xs, l.length = n)
    (hcpu : cpu_count env.detect = some c) :
    ((thread_map env (fun r => (Except.ok (fn r) : Except E β))
        (xs.map PySeq.fin) kw).2).result?
      = some (specSequentialMap d fn xs n) ∧
    ((process_map env (fun r => (Except.ok (fn r) : Except E β))
        (xs.map PySeq.fin) kw).2).result?
      = some (specSequentialMap d fn xs n) := by
  have key : ∀ kind : PoolKind,
      (_executor_map kind env (fun r => (Except.ok (fn r) : Except E β))
        (xs.map PySeq.fin) kw).result? = some (specSequentialMap d fn xs n) := by
    intro kind
    obtain ⟨t, ht⟩ := resolveTotal_fin_head kw.total hne
    have hgo : (!(xs.map PySeq.fin).isEmpty
        && allUnbounded (xs.map PySeq.fin)) = false := by
      rw [allUnbounded_map_fin hne]
      simp
    rw [executor_map_run ht hcpu hgo, seqLists_map_fin,
      pyZip_eq_ofIndex d n xs hne hlen, consume_map_ok fn]
    simp [Outcome.result?, specSequentialMap, List.map_map, Function.comp]
  exact ⟨key PoolKind.thread, key PoolKind.process⟩

/-- C1 witness: two sequences of length 2, summed; the adapter returns the
sequential map for both entry points. -/
theorem C1_witness :
    ((thread_map envStd (fun r => (Except.ok (sumFn r) : Except Unit Nat))
        ([[1, 2], [3, 4]].map PySeq.fin) {}).2).result?
      = some (specSequentialMap 0 sumFn [[1, 2], [3, 4]] 2) ∧
    ((process_map envStd (fun r => (Except.ok (sumFn r) : Except Unit Nat))
        ([[1, 2], [3, 4]].map PySeq.fin) {}).2).result?
      = some (specSequentialMap 0 sumFn [[1, 2], [3, 4]] 2) :=
  C1_adapter_equals_sequential_map envStd 0 sumFn [[1, 2], [3, 4]] 2 4 {}
    (by simp) (by decide) rfl

/-- C2: `process_map` emits the `RuntimeWarning` exactly once if and only if
the caller passed no explicit `chunksize` and the longest input sequence's
length hint is at least 1000; `thread_map` never warns; and the warning
changes nothing about execution — both entry points run exactly
`_executor_map` on their pool kind. -/
theorem C2_warning_iff {α β E L : Type} (env : Env L)
    (fn : List α → Except E β) (its : List (PySeq α)) (kw : TqdmKwargs L) :
    ((process_map env fn its kw).1
      = if kw.chunksize = none ∧ 1000 ≤ longestHint its then 1 else 0) ∧
    (thread_map env fn its kw).1 = 0 ∧
    (process_map env fn its kw).2 = _executor_map PoolKind.process env fn its kw ∧
    (thread_map env fn its kw).2 = _executor_map PoolKind.thread env fn its kw := by
  refine ⟨?_, rfl, rfl, rfl⟩
  unfold process_map
  cases its with
  | nil => simp [longestHint]
  | cons s t =>
    by_cases hc : kw.chunksize = none
    · by_cases hl : 1000 ≤ longestHint (s :: t)
      · simp [hc, hl]
      · simp [hc, hl]
    · simp [hc, Option.isNone_iff_eq_none]

/-- C3: whenever the caller does not supply `max_workers` and execution
reaches pool construction, the pool's `max_workers` is
`min(32, cpu_count() + 4)`; and when CPU-count detection is unavailable
(both imports failed, so the fallback returns 4) that value is
`min(32, 4 + 4) = 8`. -/
theorem C3_default_max_workers {α β E L : Type} (kind : PoolKind)
    (env : Env L) (fn : List α → Except E β) (its : List (PySeq α))
    (kw : TqdmKwargs L) (i : RunInfo L)
    (hmw : kw.max_workers = none)
    (hinfo : (_executor_map kind env fn its kw).info? = some i) :
    ∃ c, cpu_count env.detect = some c ∧ i.pk.max_workers = min 32 (c + 4) ∧
      (env.detect = CpuDetect.importFailed → i.pk.max_workers = 8) := by
  obtain ⟨t, c, ht, hcpu⟩ := cpu_of_info_some hinfo
  have hi := info_of_executor_map ht hcpu hinfo
  refine ⟨c, hcpu, ?_, ?_⟩
  · rw [hi]
    simp [runInfoOf, hmw]
  · intro hd
    have hc4 : c = 4 := by
      rw [hd] at hcpu
      simp only [cpu_count, Option.some.injEq] at hcpu
      exact hcpu.symm
    rw [hi, hc4]
    simp [runInfoOf, hmw]

/-- C3 witness: with both `cpu_count` imports failed and no `max_workers`
supplied, the constructed pool has `max_workers = min(32, 4 + 4) = 8`. -/
theorem C3_witness :
    ∃ c, cpu_count envImportFail.detect = some c ∧
      (RunInfo.mk ⟨PoolKind.thread, 8, none⟩ 2 1 : RunInfo Nat).pk.max_workers
        = min 32 (c + 4) ∧
      (envImportFail.detect = CpuDetect.importFailed →
        (RunInfo.mk ⟨PoolKind.thread, 8, none⟩ 2 1 : RunInfo Nat).pk.max_workers
          = 8) :=
  C3_default_max_workers PoolKind.thread envImportFail okFn
    [PySeq.fin [1, 2]] {} (RunInfo.mk ⟨PoolKind.thread, 8, none⟩ 2 1)
    rfl rfl

/-- C4 (amended): when the caller does not supply `total`, the display is
configured with `total = len(first sequence)`; and when the first sequence
has no defined length, the call fails with the `TypeError` that the
adapter's own `len(iterables[0])` call raises on line 33 — before the worker
pool or the progress-display component is ever constructed (`info? = none`),
not as an error propagated from the progress-display component. -/
theorem C4_total_defaulting {α β E L : Type} (kind : PoolKind) (env : Env L)
    (fn : List α → Except E β) (its : List (PySeq α)) (kw : TqdmKwargs L)
    (htot : kw.total = none) :
    (∀ (l : List α) (i : RunInfo L), its.head? = some (PySeq.fin l) →
      (_executor_map kind env fn its kw).info? = some i →
      i.displayTotal = l.length) ∧
    (∀ s : PySeq α, its.head? = some s → PySeq.pyLen s = none →
      _executor_map kind env fn its kw
          = Outcome.raisedEarly EarlyErr.lenTypeError ∧
      (_executor_map kind env fn its kw).info? = none) := by
  constructor
  · intro l i hhead hinfo
    have ht : resolveTotal its kw.total = Except.ok l.length := by
      cases its with
      | nil => exact Option.noConfusion hhead
      | cons s t =>
        have hs : s = PySeq.fin l := by simpa using hhead
        subst hs
        rw [htot]
        rfl
    obtain ⟨t2, c, ht2, hcpu⟩ := cpu_of_info_some hinfo
    have htt : t2 = l.length := by
      rw [ht] at ht2
      injection ht2 with h
      exact h.symm
    subst htt
    have hi := info_of_executor_map ht2 hcpu hinfo
    rw [hi]
    rfl
  · intro s hhead hlen
    have ht : resolveTotal its kw.total
        = Except.error EarlyErr.lenTypeError := by
      cases its with
      | nil => exact Option.noConfusion hhead
      | cons s2 t =>
        have hs : s2 = s := by simpa using hhead
        subst hs
        rw [htot]
        simp [resolveTotal, hlen]
    have heq : _executor_map kind env fn its kw
        = Outcome.raisedEarly EarlyErr.lenTypeError :=
      executor_map_early_total ht
    exact ⟨heq, by rw [heq]; rfl⟩

/-- C4 counterexample: with a length-less first iterable and no `total`,
the call fails with the adapter's own `len` `TypeError`, and `info? = none`
shows that neither the pool nor the progress-display component was ever
configured — so the error cannot have been propagated from the
progress-display component, contradicting the claim's attribution. -/
theorem C4_counterexample :
    _executor_map PoolKind.thread envStd okFn [PySeq.lenless [1, 2]] {}
      = Outcome.raisedEarly EarlyErr.lenTypeError ∧
    (_executor_map PoolKind.thread envStd okFn
        [PySeq.lenless [1, 2]] {}).info? = none :=
  ⟨rfl, rfl⟩

/-- C4 witness: both branches of the amended claim at concrete inputs — a
sized first sequence of length 2 defaults the display total to 2, and a
length-less first sequence raises the adapter's `TypeError` before any
pool or display exists. -/
theorem C4_witness :
    (RunInfo.mk ⟨PoolKind.thread, 8, none⟩ 2 1 : RunInfo Nat).displayTotal
      = ([1, 2] : List Nat).length ∧
    (_executor_map PoolKind.process envStd okFn [PySeq.lenless [9]] {}
        = Outcome.raisedEarly EarlyErr.lenTypeError ∧
      (_executor_map PoolKind.process envStd okFn
          [PySeq.lenless [9]] {}).info? = none) :=
  ⟨(C4_total_defaulting PoolKind.thread envStd okFn [PySeq.fin [1, 2]] {}
      rfl).1 [1, 2] (RunInfo.mk ⟨PoolKind.thread, 8, none⟩ 2 1) rfl rfl,
    (C4_total_defaulting PoolKind.process envStd okFn [PySeq.lenless [9]] {}
      rfl).2 (PySeq.lenless [9]) rfl rfl⟩

/-- C5 (amended): whenever the call returns a list, its length equals the
shortest defined element count among the input sequences, regardless of
`total`, `max_workers` and `chunksize`; but when every input sequence is
lazily unbounded, the call diverges (the materialization never completes)
even when `total` is explicitly overridden, so no list of length `total`
is returned. -/
theorem C5_output_length {α β E L : Type} (kind : PoolKind) (env : Env L)
    (fn : List α → Except E β) (its : List (PySeq α)) (kw : TqdmKwargs L) :
    (∀ (i : RunInfo L) (res : List β),
      _executor_map kind env fn its kw = Outcome.ret i res →
      res.length = minFinite its) ∧
    (∀ t c, kw.total = some t → cpu_count env.detect = some c → its ≠ [] →
      allUnbounded its = true →
      ∃ i, _executor_map kind env fn its kw = Outcome.diverges i) := by
  constructor
  · intro i res hret
    cases ht : resolveTotal its kw.total with
    | error e =>
      rw [executor_map_early_total ht] at hret
      exact Outcome.noConfusion hret
    | ok t =>
      cases hcpu : cpu_count env.detect with
      | none =>
        rw [executor_map_cpu_error ht hcpu] at hret
        exact Outcome.noConfusion hret
      | some c =>
        cases hgo : (!its.isEmpty && allUnbounded its) with
        | true =>
          rw [executor_map_diverges ht hcpu hgo] at hret
          exact Outcome.noConfusion hret
        | false =>
          rw [executor_map_run ht hcpu hgo] at hret
          cases hcons : consume ((pyZip (seqLists its)).map fn) with
          | error e =>
            rw [hcons] at hret
            exact Outcome.noConfusion hret
          | ok res2 =>
            rw [hcons] at hret
            have hres : res = res2 := by
              have := (Outcome.ret.injEq _ _ _ _).mp hret
              exact this.2.symm
            subst hres
            have hlen2 := consume_ok_length hcons
            rw [List.length_map, pyZip_length] at hlen2
            cases its with
            | nil =>
              rw [hlen2]
              rfl
            | cons s t2 =>
              have hub : allUnbounded (s :: t2) = false := by
                simpa using hgo
              rw [hlen2]
              exact minLen_seqLists hub
  · intro t c htot hcpu hne hub
    have ht : resolveTotal its kw.total = Except.ok t := by
      rw [htot]
      rfl
    have hgo : (!its.isEmpty && allUnbounded its) = true := by
      cases its with
      | nil => exact absurd rfl hne
      | cons s t2 => simpa using hub
    exact ⟨_, executor_map_diverges ht hcpu hgo⟩

/-- C5 counterexample: one lazily unbounded input sequence with `total`
explicitly overridden to 5 — the claim says the returned list has length 5,
but the call never returns a list at all: it diverges materializing the
unbounded result sequence. -/
theorem C5_counterexample :
    (_executor_map PoolKind.process envStd (fun _ => (Except.ok 0 : Except Unit Nat))
        [PySeq.unbounded (fun k => k)] { total := some 5 }).result? = none ∧
    ({ total := some 5 } : TqdmKwargs Nat).total = some 5 ∧
    _executor_map PoolKind.process envStd (fun _ => (Except.ok 0 : Except Unit Nat))
        [PySeq.unbounded (fun k => k)] { total := some 5 }
      = Outcome.diverges (RunInfo.mk ⟨PoolKind.process, 8, none⟩ 5 1) :=
  ⟨rfl, rfl, rfl⟩

/-- C5 witness: both branches of the amended claim — a returned list has the
length of the shortest input sequence (here 1), and an all-unbounded input
with explicit `total` diverges. -/
theorem C5_witness :
    (([10] : List Nat).length = minFinite [PySeq.fin [1, 2, 3], PySeq.fin [9]]) ∧
    (∃ i, _executor_map PoolKind.thread envStd
        (fun _ => (Except.ok 0 : Except Unit Nat))
        [PySeq.unbounded (fun k => k)] { total := some 5 }
      = Outcome.diverges i) :=
  ⟨(C5_output_length PoolKind.thread envStd okFn
      [PySeq.fin [1, 2, 3], PySeq.fin [9]] {}).1
      (RunInfo.mk ⟨PoolKind.thread, 8, none⟩ 3 1) [10] rfl,
    (C5_output_length PoolKind.thread envStd
      (fun _ => (Except.ok 0 : Except Unit Nat))
      [PySeq.unbounded (fun k => k)] { total := some 5 }).2 5 4 rfl rfl
      (by simp) rfl⟩

/-- C6: if `fn` raises for some element, the call raises an exception that
`fn` raised on one of the zipped input rows, and no result list is returned
(the outcome is `raisedFn`, and `result? = none`). -/
theorem C6_exception_propagation {α β E L : Type} (kind : PoolKind)
    (env : Env L) (fn : List α → Except E β) (xs : List (List α)) (c : Nat)
    (kw : TqdmKwargs L)
    (hcpu : cpu_count env.detect = some c)
    (hfail : ∃ r ∈ pyZip xs, ∃ e, fn r = Except.error e) :
    ∃ i e, _executor_map kind env fn (xs.map PySeq.fin) kw
        = Outcome.raisedFn i e ∧
      (∃ r ∈ pyZip xs, fn r = Except.error e) ∧
      (_executor_map kind env fn (xs.map PySeq.fin) kw).result? = none := by
  obtain ⟨r, hr, e, hfe⟩ := hfail
  have hne : xs ≠ [] := by
    rintro rfl
    cases hr
  obtain ⟨t, ht⟩ := resolveTotal_fin_head kw.total hne
  have hgo : (!(xs.map PySeq.fin).isEmpty
      && allUnbounded (xs.map PySeq.fin)) = false := by
    rw [allUnbounded_map_fin hne]
    simp
  have hmem : Except.error e ∈ (pyZip (seqLists (xs.map PySeq.fin))).map fn := by
    rw [seqLists_map_fin]
    exact List.mem_map.mpr ⟨r, hr, hfe⟩
  obtain ⟨e2, hcons, hmem2⟩ := consume_error_mem hmem
  have hrun := @executor_map_run α β E L kind env fn (xs.map PySeq.fin) kw
    t c ht hcpu hgo
  rw [hcons] at hrun
  rw [seqLists_map_fin] at hmem2
  obtain ⟨r2, hr2, hfe2⟩ := List.mem_map.mp hmem2
  exact ⟨_, e2, hrun, ⟨r2, hr2, hfe2⟩, by rw [hrun]; rfl⟩

/-- C6 witness: `errFn` raises `7` on every row; the call surfaces a raised
exception and returns no list. -/
theorem C6_witness :
    ∃ i e, _executor_map PoolKind.process envStd errFn
        ([[1, 2]].map PySeq.fin) {} = Outcome.raisedFn i e ∧
      (∃ r ∈ pyZip [[1, 2]], errFn r = Except.error e) ∧
      (_executor_map PoolKind.process envStd errFn
          ([[1, 2]].map PySeq.fin) {}).result? = none :=
  C6_exception_propagation PoolKind.process envStd errFn [[1, 2]] 4 {} rfl
    ⟨[1], by decide, 7, rfl⟩

/-- C7: two runs with the same `fn` and input sequences but different
`max_workers` and/or `chunksize` return the same result list (or equally no
list) — the options influence only execution strategy, never the returned
values — for both entry points. -/
theorem C7_options_never_change_result {α β E L : Type} (env : Env L)
    (fn : List α → Except E β) (its : List (PySeq α)) (kw : TqdmKwargs L)
    (mw1 mw2 c1 c2 : Option Nat) :
    ((thread_map env fn its
        { kw with max_workers := mw1, chunksize := c1 }).2).result?
      = ((thread_map env fn its
        { kw with max_workers := mw2, chunksize := c2 }).2).result? ∧
    ((process_map env fn its
        { kw with max_workers := mw1, chunksize := c1 }).2).result?
      = ((process_map env fn its
        { kw with max_workers := mw2, chunksize := c2 }).2).result? := by
  have key : ∀ (kind : PoolKind) (kwa kwb : TqdmKwargs L),
      kwa.total = kwb.total →
      (_executor_map kind env fn its kwa).result?
        = (_executor_map kind env fn its kwb).result? := by
    intro kind kwa kwb htot
    cases ht : resolveTotal its kwa.total with
    | error e =>
      have htb : resolveTotal its kwb.total = Except.error e := by
        rw [← htot]
        exact ht
      rw [executor_map_early_total ht, executor_map_early_total htb]
    | ok t =>
      have htb : resolveTotal its kwb.total = Except.ok t := by
        rw [← htot]
        exact ht
      cases hcpu : cpu_count env.detect with
      | none =>
        rw [executor_map_cpu_error ht hcpu, executor_map_cpu_error htb hcpu]
      | some c =>
        cases hgo : (!its.isEmpty && allUnbounded its) with
        | true =>
          rw [executor_map_diverges ht hcpu hgo,
            executor_map_diverges htb hcpu hgo]
          rfl
        | false =>
          rw [executor_map_run ht hcpu hgo, executor_map_run htb hcpu hgo]
          cases hcons : consume ((pyZip (seqLists its)).map fn) with
          | ok res => rfl
          | error e => rfl
  exact ⟨key PoolKind.thread _ _ rfl, key PoolKind.process _ _ rfl⟩

/-- C8: whenever the executor accepts per-worker initialization (Python >=
3.7, `env.supportsInit`), the pool is constructed with
`initializer = tqdm_class.set_lock` and `initargs = (tqdm_class.get_lock(),)`,
so a freshly spawned worker has the display class's process-wide lock
installed; when the capability is absent, no initializer is passed and
spawning is a no-op on the class lock. -/
theorem C8_lock_initialization {α β E L : Type} (kind : PoolKind)
    (env : Env L) (fn : List α → Except E β) (its : List (PySeq α))
    (kw : TqdmKwargs L) (i : RunInfo L)
    (hinfo : (_executor_map kind env fn its kw).info? = some i) :
    i.pk.init
      = (if env.supportsInit then
          some ((kw.tqdm_class.getD env.tqdm_auto).set_lock,
            (kw.tqdm_class.getD env.tqdm_auto).get_lock)
        else none) ∧
    (spawnWorker i.pk).clsLock
      = (if env.supportsInit then
          some (kw.tqdm_class.getD env.tqdm_auto).lock
        else none) := by
  obtain ⟨t, c, ht, hcpu⟩ := cpu_of_info_some hinfo
  have hi := info_of_executor_map ht hcpu hinfo
  subst hi
  cases hs : env.supportsInit with
  | false =>
    constructor
    · simp [runInfoOf, hs]
    · simp [runInfoOf, hs, spawnWorker, freshWorker]
  | true =>
    constructor
    · simp [runInfoOf, hs]
    · simp [runInfoOf, hs, spawnWorker, TqdmClass.set_lock,
        TqdmClass.get_lock]

/-- C8 witness: in a >= 3.7 environment with default `tqdm_class`, the pool
is built with the lock-sharing initializer and a spawned worker holds the
class lock 42. -/
theorem C8_witness :
    (RunInfo.mk
        ⟨PoolKind.thread, 8,
          some (TqdmClass.set_lock ⟨42⟩, (42 : Nat))⟩ 1 1).pk.init
      = (if envInit.supportsInit then
          some ((({} : TqdmKwargs Nat).tqdm_class.getD envInit.tqdm_auto).set_lock,
            (({} : TqdmKwargs Nat).tqdm_class.getD envInit.tqdm_auto).get_lock)
        else none) ∧
    (spawnWorker (RunInfo.mk
        ⟨PoolKind.thread, 8,
          some (TqdmClass.set_lock ⟨42⟩, (42 : Nat))⟩ 1 1).pk).clsLock
      = (if envInit.supportsInit then
          some (({} : TqdmKwargs Nat).tqdm_class.getD envInit.tqdm_auto).lock
        else none) :=
  C8_lock_initialization PoolKind.thread envInit okFn [PySeq.fin [7]] {}
    (RunInfo.mk ⟨PoolKind.thread, 8,
      some (TqdmClass.set_lock ⟨42⟩, (42 : Nat))⟩ 1 1) rfl

/-- C9: the caller's `tqdm_kwargs` dict is never mutated: lines 32–37 work
on the deep copy allocated at a fresh reference, so after inserting
`"total"` and popping `"tqdm_class"`, `"max_workers"` and `"chunksize"`,
the dict at the caller's reference — including every value inside it — is
exactly what it was before the call. -/
theorem C9_kwargs_frame (dfl : KwDefaults V) (lenFirst defMW : V)
    (h0 : Heap V) (r0 : Nat) (hr : r0 < h0.length) :
    Heap.read (kwargsPhase dfl lenFirst defMW h0 r0).1 r0
      = Heap.read h0 r0 := by
  have hne : r0 ≠ h0.length := Nat.ne_of_lt hr
  simp only [kwargsPhase]
  rw [heap_read_write_ne _ _ _ _ hne, heap_read_write_ne _ _ _ _ hne,
    heap_read_write_ne _ _ _ _ hne]
  by_cases hk : (Heap.read (h0 ++ [Heap.read h0 r0]) h0.length).hasKey "total"
  · rw [if_pos hk, heap_read_append _ _ _ hr]
  · rw [if_neg hk, heap_read_write_ne _ _ _ _ hne,
      heap_read_append _ _ _ hr]

/-- C9 witness: a concrete caller dict survives the kwargs phase unchanged. -/
theorem C9_witness :
    Heap.read (kwargsPhase (KwDefaults.mk 100 1) 7 8
        [[("total", (3 : Nat)), ("max_workers", 5)]] 0).1 0
      = Heap.read [[("total", (3 : Nat)), ("max_workers", 5)]] 0 :=
  C9_kwargs_frame (KwDefaults.mk 100 1) 7 8
    [[("total", (3 : Nat)), ("max_workers", 5)]] 0 (by decide)

/-- C10: the `max_workers` default expression `min(32, cpu_count() + 4)` is
evaluated on every call, even when `max_workers` is supplied explicitly; so
whenever `cpu_count()` returns `None`, every call with at least one input
sequence fails with a `TypeError` (either the `None + 4` one, or — when
`total` is also missing and the first sequence has no `len` — the earlier
`len` one). -/
theorem C10_cpu_count_always_evaluated {α β E L : Type} (kind : PoolKind)
    (env : Env L) (fn : List α → Except E β) (its : List (PySeq α))
    (kw : TqdmKwargs L) (mw : Nat)
    (hcpu : cpu_count env.detect = none)
    (_hmw : kw.max_workers = some mw)
    (hne : its ≠ []) :
    ∃ e, _executor_map kind env fn its kw = Outcome.raisedEarly e ∧
      e.isTypeError = true := by
  cases ht : resolveTotal its kw.total with
  | error e =>
    have he := resolveTotal_error_eq hne ht
    subst he
    exact ⟨EarlyErr.lenTypeError, executor_map_early_total ht, rfl⟩
  | ok t => exact ⟨EarlyErr.cpuTypeError, executor_map_cpu_error ht hcpu, rfl⟩

/-- C10 witness: `cpu_count()` returning `None` makes the call fail with a
`TypeError` even though `max_workers = 99` was passed explicitly. -/
theorem C10_witness :
    ∃ e, _executor_map PoolKind.thread envNoCpu okFn [PySeq.fin [1]]
        { max_workers := some 99 } = Outcome.raisedEarly e ∧
      e.isTypeError = true :=
  C10_cpu_count_always_evaluated PoolKind.thread envNoCpu okFn
    [PySeq.fin [1]] { max_workers := some 99 } 99 rfl rfl (by simp)

end Tqdm
